import Mathlib

/-!
Verification of the whisper TUI core: the capacity-bounded, timestamp-ordered
message store, the control-character stripping utility, the send/ingest paths,
the relay connection wait loop and the render/input loop, shallowly embedded
from the C sources (tui.c, util tests, whisper.h).

Conventions of the embedding:
* byte strings (`char*` contents) are `List Nat` of byte values;
* `time_t` timestamps are `Int`;
* the doubly-linked message list is a `List`, head = oldest, tail = newest;
* external collaborators (crypto wrap/unwrap, relay publish, key parsing)
  are oracles passed in as data, exactly as the C code branches on their
  return codes;
* fields used purely for display emphasis (fade counters, idle ticks) are
  omitted: the spec declares them correctness-irrelevant.
-/

set_option maxRecDepth 8000

namespace Whisper

/-! ## Control-character stripping (`whisper_strip_control_chars`) -/

/-- The byte-keep condition of `whisper_strip_control_chars`, in the source's
own order: `c == '\t' || c == '\n' || c >= 0x80 || (c >= 0x20 && c < 0x7F)`. -/
def keep_byte (c : Nat) : Bool :=
  c == 9 || c == 10 || decide (0x80 ≤ c) || (decide (0x20 ≤ c) && decide (c < 0x7F))

/-- Body of `whisper_strip_control_chars` on a non-null input: the loop copies
exactly the bytes passing `keep_byte`, in order. -/
def strip_bytes (bytes : List Nat) : List Nat :=
  bytes.filter keep_byte

/-- Function `whisper_strip_control_chars`: `NULL` input (`none`) yields `NULL` output;
otherwise a fresh copy of the kept bytes. Allocation is modelled as always
succeeding (the only failure mode the C function has is `malloc` returning
`NULL`, which the spec calls allocation exhaustion). -/
def whisper_strip_control_chars : Option (List Nat) → Option (List Nat)
  | none => none
  | some bytes => some (strip_bytes bytes)

/-- The keep condition as the specification words it: horizontal tab 0x09,
newline 0x0A, the printable range 0x20 to 0x7E inclusive, and every byte at
least 0x80. -/
def spec_keep_byte (c : Nat) : Bool :=
  c == 0x09 || c == 0x0A || (decide (0x20 ≤ c) && decide (c ≤ 0x7E)) || decide (0x80 ≤ c)

lemma keep_byte_eq_spec (c : Nat) : keep_byte c = spec_keep_byte c := by
  rw [Bool.eq_iff_iff]
  simp only [keep_byte, spec_keep_byte, Bool.or_eq_true, Bool.and_eq_true,
    decide_eq_true_eq, beq_iff_eq]
  omega

lemma keep_byte_of_high (c : Nat) (h : 0x80 ≤ c) : keep_byte c = true := by
  simp [keep_byte, h]

/-- The claim `C8`: stripping retains exactly the bytes that are horizontal tab
(0x09), newline (0x0A), in 0x20..0x7E, or at least 0x80, in their original
order (a filter), removes everything else, maps null input to null output, and
(allocation aside, which the model treats as always succeeding) never fails. -/
theorem claim_C8_strip_exact :
    whisper_strip_control_chars none = none ∧
    ∀ bytes : List Nat,
      whisper_strip_control_chars (some bytes) = some (bytes.filter spec_keep_byte) := by
  refine ⟨rfl, fun bytes => ?_⟩
  have h : keep_byte = spec_keep_byte := funext keep_byte_eq_spec
  simp [whisper_strip_control_chars, strip_bytes, h]

/-- The claim `C9`: stripping is idempotent (already-stripped strings are fixed
points) and neither drops nor alters any byte whose value is at least 0x80:
the subsequence of high bytes is untouched. -/
theorem claim_C9_strip_idempotent :
    (∀ bytes : List Nat, strip_bytes (strip_bytes bytes) = strip_bytes bytes) ∧
    (∀ bytes : List Nat, (∀ c ∈ bytes, keep_byte c = true) → strip_bytes bytes = bytes) ∧
    (∀ bytes : List Nat,
      (strip_bytes bytes).filter (fun c => decide (0x80 ≤ c)) =
        bytes.filter (fun c => decide (0x80 ≤ c))) := by
  refine ⟨fun bytes => ?_, fun bytes h => ?_, fun bytes => ?_⟩
  · simp [strip_bytes, List.filter_filter]
  · simpa [strip_bytes] using List.filter_eq_self.mpr h
  · induction bytes with
    | nil => rfl
    | cons c rest ih =>
      by_cases hc : 0x80 ≤ c
      · simp [strip_bytes, keep_byte_of_high c hc, hc] at ih ⊢
        exact ih
      · have hk : decide (0x80 ≤ c) = false := by simp [hc]
        by_cases hkeep : keep_byte c = true
        · simp [strip_bytes, hkeep, hk] at ih ⊢
          exact ih
        · simp [strip_bytes, hkeep, hk] at ih ⊢
          exact ih

/-! ## The message store (`tui_message`, `add_message_sorted`, eviction) -/

/-- Capacity bound of the store (`#define MAX_MESSAGES 1000`). -/
def MAX_MESSAGES : Nat := 1000

/-- A `struct tui_message`. The insertion and eviction code reads only the
`timestamp` field; the remaining C fields (sender text, content, outgoing
flag, fade counter) travel as an arbitrary `data` payload, instantiated below
with the concrete record `msg_data` for the session model and with a bare
insertion index for the ordering theorems. The `next`/`prev` pointers are the
list structure itself (head = oldest, tail = newest). -/
structure tui_message (α : Type) where
  timestamp : Int
  data : α
deriving DecidableEq

variable {α : Type}

/-- The scan of `add_message_sorted` (`for (m = ctx->messages_tail; m; m =
m->prev)`) together with the pointer splice, phrased on the reversed list
(newest record first): walk from the newest end past every record whose
timestamp strictly exceeds the new record's, and place the new record in
front of the first record whose timestamp is ≤ its own (i.e. just after it in
store order); if no such record exists the new record becomes the head. -/
def ins_from_tail (msg : tui_message α) : List (tui_message α) → List (tui_message α)
  | [] => [msg]
  | m :: rest =>
    if m.timestamp ≤ msg.timestamp then msg :: m :: rest
    else m :: ins_from_tail msg rest

/-- Function `evict_oldest_message_locked`: unlink and free the head (oldest) record. -/
def evict_oldest_message (l : List (tui_message α)) : List (tui_message α) :=
  l.tail

/-- The `while (ctx->message_count > MAX_MESSAGES)` eviction loop at the end
of `add_message_sorted`. -/
def evict_loop (l : List (tui_message α)) : List (tui_message α) :=
  if h : MAX_MESSAGES < l.length then evict_loop (evict_oldest_message l) else l
termination_by l.length
decreasing_by simp only [evict_oldest_message, List.length_tail]; omega

/-- Function `add_message_sorted`, minus its lock/redraw bookkeeping (which lives in
the session-level model below): sorted splice, then eviction while over
capacity. -/
def add_message_sorted (l : List (tui_message α)) (msg : tui_message α) :
    List (tui_message α) :=
  evict_loop ((ins_from_tail msg l.reverse).reverse)

/-- The records the tail scan skips over: strictly newer than `msg`. -/
def newer_than (msg : tui_message α) : tui_message α → Bool :=
  fun m => decide (msg.timestamp < m.timestamp)

lemma ins_from_tail_eq (msg : tui_message α) (rl : List (tui_message α)) :
    ins_from_tail msg rl =
      rl.takeWhile (newer_than msg) ++ msg :: rl.dropWhile (newer_than msg) := by
  induction rl with
  | nil => rfl
  | cons m rest ih =>
    by_cases h : m.timestamp ≤ msg.timestamp
    · have hp : ¬ newer_than msg m = true := by
        simp only [newer_than, decide_eq_true_eq]; omega
      simp [ins_from_tail, if_pos h, List.takeWhile_cons_of_neg hp,
        List.dropWhile_cons_of_neg hp]
    · have hp : newer_than msg m = true := by
        simp only [newer_than, decide_eq_true_eq]; omega
      simp [ins_from_tail, if_neg h, List.takeWhile_cons_of_pos hp,
        List.dropWhile_cons_of_pos hp, ih]

/-- Splice characterisation of the insertion phase: the store splits as
`A ++ B` where `B` is the maximal run of strictly newer records at the new
end, and the new record lands exactly between them — immediately after the
last record whose timestamp is ≤ its own, scanning from the newest end. -/
lemma insert_splice (l : List (tui_message α)) (msg : tui_message α) :
    ∃ A B, (ins_from_tail msg l.reverse).reverse = A ++ msg :: B ∧
      l = A ++ B ∧
      (∀ b ∈ B, msg.timestamp < b.timestamp) ∧
      (∀ h : A ≠ [], (A.getLast h).timestamp ≤ msg.timestamp) := by
  refine ⟨(l.reverse.dropWhile (newer_than msg)).reverse,
          (l.reverse.takeWhile (newer_than msg)).reverse, ?_, ?_, ?_, ?_⟩
  · rw [ins_from_tail_eq]
    simp [List.reverse_append]
  · rw [← List.reverse_append, List.takeWhile_append_dropWhile, List.reverse_reverse]
  · intro b hb
    rw [List.mem_reverse] at hb
    have := List.mem_takeWhile_imp hb
    simpa [newer_than] using this
  · intro hA
    have hne : l.reverse.dropWhile (newer_than msg) ≠ [] := by
      intro h0
      exact hA (by simp [h0])
    have h2 : newer_than msg ((l.reverse.dropWhile (newer_than msg)).head hne) = false :=
      List.head_dropWhile_not _ _ hne
    have h3 : ¬ msg.timestamp <
        ((l.reverse.dropWhile (newer_than msg)).head hne).timestamp := by
      simpa [newer_than] using h2
    rw [List.getLast_reverse]
    omega

lemma evict_loop_le (l : List (tui_message α)) (h : l.length ≤ MAX_MESSAGES) :
    evict_loop l = l := by
  rw [evict_loop]
  simp [Nat.not_lt.mpr h]

lemma evict_loop_fuel : ∀ (n : Nat) (l : List (tui_message α)), l.length ≤ n →
    evict_loop l = l.drop (l.length - MAX_MESSAGES) := by
  intro n
  induction n with
  | zero =>
    intro l h
    have : l.length = 0 := by omega
    rw [evict_loop_le l (by omega), this]
    simp
  | succ n ih =>
    intro l h
    by_cases hM : MAX_MESSAGES < l.length
    · rw [evict_loop, dif_pos hM]
      have hlt : l.tail.length ≤ n := by
        simp only [List.length_tail]; omega
      rw [show evict_oldest_message l = l.tail from rfl, ih l.tail hlt,
        List.drop_tail]
      have harg : l.tail.length - MAX_MESSAGES + 1 = l.length - MAX_MESSAGES := by
        simp only [List.length_tail]; omega
      rw [harg]
    · rw [evict_loop_le l (by omega)]
      have : l.length - MAX_MESSAGES = 0 := by omega
      rw [this, List.drop_zero]

/-- The eviction loop keeps the newest `MAX_MESSAGES` records: it drops the
oldest `length - MAX_MESSAGES` from the head. -/
lemma evict_loop_eq_drop (l : List (tui_message α)) :
    evict_loop l = l.drop (l.length - MAX_MESSAGES) :=
  evict_loop_fuel l.length l le_rfl

lemma evict_loop_length (l : List (tui_message α)) :
    (evict_loop l).length = min l.length MAX_MESSAGES := by
  rw [evict_loop_eq_drop, List.length_drop]
  omega

lemma evict_loop_succ (l : List (tui_message α)) (h : l.length = MAX_MESSAGES + 1) :
    evict_loop l = l.tail := by
  rw [evict_loop_eq_drop, h]
  simp [List.drop_one]

lemma ins_from_tail_length (msg : tui_message α) (l : List (tui_message α)) :
    ((ins_from_tail msg l.reverse).reverse).length = l.length + 1 := by
  obtain ⟨A, B, hins, hsplit, -, -⟩ := insert_splice l msg
  rw [hins, hsplit]
  simp [List.length_append]
  omega

/-- Inserting one record into a store of `n` records leaves
`min (n + 1) MAX_MESSAGES` records, whatever the store holds. -/
lemma add_message_sorted_length (l : List (tui_message α)) (msg : tui_message α) :
    (add_message_sorted l msg).length = min (l.length + 1) MAX_MESSAGES := by
  unfold add_message_sorted
  rw [evict_loop_length, ins_from_tail_length]

/-! ## The ordering rule and the reachable-store invariant -/

/-- Message records tagged with their insertion index as payload: the
instantiation used to state ordering and eviction facts about the store. -/
abbrev IdxMsg := tui_message Nat

/-- The store's ordering rule: ascending timestamp, ties broken by insertion
order (the payload of an `IdxMsg` is its insertion index). -/
def lex_lt (a b : IdxMsg) : Prop :=
  a.timestamp < b.timestamp ∨ (a.timestamp = b.timestamp ∧ a.data < b.data)

instance : DecidableRel lex_lt := fun a b => by unfold lex_lt; infer_instance

lemma lex_lt_trans {a b c : IdxMsg} (h1 : lex_lt a b) (h2 : lex_lt b c) :
    lex_lt a c := by
  unfold lex_lt at h1 h2 ⊢
  omega

lemma ts_le_getLast_of_sorted :
    ∀ (A : List IdxMsg), A.Pairwise lex_lt → ∀ (h : A ≠ []) (a : IdxMsg), a ∈ A →
      a.timestamp ≤ (A.getLast h).timestamp := by
  intro A
  induction A with
  | nil => intro _ h; exact absurd rfl h
  | cons x t ih =>
    intro hs h a ha
    cases t with
    | nil =>
      simp only [List.mem_singleton] at ha
      subst ha
      simp [List.getLast]
    | cons y u =>
      rw [List.getLast_cons (by simp)]
      rcases List.mem_cons.mp ha with rfl | hmem
      · have hlt : lex_lt a (List.getLast (y :: u) (by simp)) :=
          (List.pairwise_cons.mp hs).1 _ (List.getLast_mem (by simp))
        unfold lex_lt at hlt
        omega
      · exact ih (List.pairwise_cons.mp hs).2 (by simp) a hmem

/-- Invariant of the store after the records of `processed` were inserted in
list order: strictly sorted by the ordering rule, of size
`min |processed| MAX_MESSAGES`, holding only processed records, with every
non-retained processed record older (under the rule) than everything
retained, and nothing evicted while below capacity. -/
def store_inv (processed store : List IdxMsg) : Prop :=
  store.Pairwise lex_lt ∧
  store.length = min processed.length MAX_MESSAGES ∧
  (∀ m ∈ store, m ∈ processed) ∧
  (∀ m ∈ processed, m ∈ store ∨ ∀ s ∈ store, lex_lt m s) ∧
  (processed.length ≤ MAX_MESSAGES → ∀ m ∈ processed, m ∈ store)

/-- One insertion preserves the invariant, provided the new record's insertion
index is fresh (larger than every index inserted so far). -/
lemma store_inv_step {processed store : List IdxMsg} {r : IdxMsg}
    (hInv : store_inv processed store)
    (hfresh : ∀ m ∈ processed, m.data < r.data) :
    store_inv (processed ++ [r]) (add_message_sorted store r) := by
  obtain ⟨hsort, hlen, hmem, hdom, hfull⟩ := hInv
  obtain ⟨A, B, hins, hsplit, hB, hlastA⟩ := insert_splice store r
  subst hsplit
  rw [show add_message_sorted (A ++ B) r = evict_loop (A ++ r :: B) by
    unfold add_message_sorted; rw [hins]]
  obtain ⟨hPA, hPB, hAB⟩ := List.pairwise_append.mp hsort
  have hA_ts : ∀ a ∈ A, a.timestamp ≤ r.timestamp := by
    intro a ha
    have hAne : A ≠ [] := by rintro rfl; simp at ha
    have h1 := ts_le_getLast_of_sorted A hPA hAne a ha
    have h2 := hlastA hAne
    omega
  have hA_lex_r : ∀ a ∈ A, lex_lt a r := by
    intro a ha
    have h1 := hA_ts a ha
    have h2 := hfresh a (hmem a (List.mem_append_left B ha))
    unfold lex_lt
    omega
  have hr_lex_B : ∀ b ∈ B, lex_lt r b := fun b hb => Or.inl (hB b hb)
  have hsort' : (A ++ r :: B).Pairwise lex_lt := by
    rw [List.pairwise_append]
    refine ⟨hPA, List.pairwise_cons.mpr ⟨hr_lex_B, hPB⟩, ?_⟩
    intro a ha x hx
    rcases List.mem_cons.mp hx with rfl | hxB
    · exact hA_lex_r a ha
    · exact hAB a ha x hxB
  have hplen : (processed ++ [r]).length = processed.length + 1 := by
    simp
  by_cases hcap : processed.length < MAX_MESSAGES
  · -- below capacity: the eviction loop does nothing
    have hsl : (A ++ B).length = processed.length := by omega
    have hsle : (A ++ r :: B).length ≤ MAX_MESSAGES := by
      simp only [List.length_append, List.length_cons] at hsl ⊢
      omega
    rw [evict_loop_le _ hsle]
    have hall : ∀ m ∈ processed ++ [r], m ∈ A ++ r :: B := by
      intro m hm
      rcases List.mem_append.mp hm with hmp | hmr
      · have hms := hfull (by omega) m hmp
        rcases List.mem_append.mp hms with hma | hmb
        · exact List.mem_append_left _ hma
        · exact List.mem_append_right _ (List.mem_cons_of_mem r hmb)
      · rw [List.mem_singleton] at hmr
        subst hmr
        exact List.mem_append_right _ (List.mem_cons_self _ _)
    refine ⟨hsort', ?_, ?_, fun m hm => Or.inl (hall m hm), fun _ => hall⟩
    · rw [hplen]
      simp only [List.length_append, List.length_cons] at hsl ⊢
      omega
    · intro m hm
      rcases List.mem_append.mp hm with hma | hmc
      · exact List.mem_append_left _ (hmem m (List.mem_append_left B hma))
      · rcases List.mem_cons.mp hmc with rfl | hmb
        · exact List.mem_append_right _ (List.mem_singleton_self m)
        · exact List.mem_append_left _ (hmem m (List.mem_append_right A hmb))
  · -- at capacity: exactly one (the oldest) record is evicted
    push_neg at hcap
    have hsl : (A ++ B).length = MAX_MESSAGES := by omega
    have hlen1 : (A ++ r :: B).length = MAX_MESSAGES + 1 := by
      simp only [List.length_append, List.length_cons] at hsl ⊢
      omega
    rw [evict_loop_succ _ hlen1]
    cases A with
    | nil =>
      -- the new record is itself the oldest and is evicted at once
      simp only [List.nil_append, List.tail_cons] at hsl ⊢
      simp only [List.nil_append] at hmem hdom
      refine ⟨hPB, ?_, ?_, ?_, ?_⟩
      · rw [hplen]; omega
      · intro m hm
        exact List.mem_append_left _ (hmem m hm)
      · intro m hm
        rcases List.mem_append.mp hm with hmp | hmr
        · rcases hdom m hmp with hms | hdm
          · exact Or.inl hms
          · exact Or.inr hdm
        · rw [List.mem_singleton] at hmr
          subst hmr
          exact Or.inr hr_lex_B
      · intro hcon
        rw [hplen] at hcon
        omega
    | cons h0 A' =>
      simp only [List.cons_append, List.tail_cons]
      have hsort'' : (h0 :: (A' ++ r :: B)).Pairwise lex_lt := hsort'
      obtain ⟨hh0, hrest⟩ := List.pairwise_cons.mp hsort''
      have hh0A : h0 ∈ h0 :: A' := List.mem_cons_self h0 A'
      have hh0store : h0 ∈ (h0 :: A') ++ B := List.mem_append_left B hh0A
      refine ⟨hrest, ?_, ?_, ?_, ?_⟩
      · rw [hplen]
        simp only [List.length_append, List.length_cons] at hlen1 ⊢
        omega
      · intro m hm
        rcases List.mem_append.mp hm with hma | hmc
        · exact List.mem_append_left _
            (hmem m (List.mem_append_left B (List.mem_cons_of_mem h0 hma)))
        · rcases List.mem_cons.mp hmc with rfl | hmb
          · exact List.mem_append_right _ (List.mem_singleton_self m)
          · exact List.mem_append_left _ (hmem m (List.mem_append_right _ hmb))
      · intro m hm
        rcases List.mem_append.mp hm with hmp | hmr
        · rcases hdom m hmp with hms | hdm
          · rcases List.mem_append.mp hms with hmca | hmb
            · rcases List.mem_cons.mp hmca with rfl | hma
              · exact Or.inr hh0
              · exact Or.inl (List.mem_append_left _ hma)
            · exact Or.inl (List.mem_append_right _ (List.mem_cons_of_mem r hmb))
          · refine Or.inr ?_
            intro s hs
            rcases List.mem_append.mp hs with hsa | hsc
            · exact hdm s (List.mem_append_left B (List.mem_cons_of_mem h0 hsa))
            · rcases List.mem_cons.mp hsc with rfl | hsb
              · exact lex_lt_trans (hdm h0 hh0store) (hA_lex_r h0 hh0A)
              · exact hdm s (List.mem_append_right _ hsb)
        · rw [List.mem_singleton] at hmr
          subst hmr
          exact Or.inl (List.mem_append_right _ (List.mem_cons_self m B))
      · intro hcon
        rw [hplen] at hcon
        omega

/-- Records of the timestamp sequence `tss`, tagged with consecutive
insertion indices starting at `k`. -/
def indexed_from : Nat → List Int → List IdxMsg
  | _, [] => []
  | k, t :: ts => ⟨t, k⟩ :: indexed_from (k + 1) ts

/-- The store obtained by inserting the whole timestamp sequence `tss` into an
initially empty store, one `add_message_sorted` call per record; the payload
of each record is its insertion index. -/
def message_store_run (tss : List Int) : List IdxMsg :=
  (indexed_from 0 tss).foldl add_message_sorted []

lemma indexed_from_length : ∀ (ts : List Int) (k : Nat),
    (indexed_from k ts).length = ts.length := by
  intro ts
  induction ts with
  | nil => intro k; rfl
  | cons t ts ih => intro k; simp [indexed_from, ih]

lemma store_inv_nil : store_inv [] [] := by
  refine ⟨List.Pairwise.nil, by simp, by simp, by simp, by simp⟩

lemma store_inv_fold : ∀ (ts : List Int) (k : Nat) (processed store : List IdxMsg),
    store_inv processed store → (∀ m ∈ processed, m.data < k) →
    store_inv (processed ++ indexed_from k ts)
      ((indexed_from k ts).foldl add_message_sorted store) := by
  intro ts
  induction ts with
  | nil =>
    intro k processed store hInv _
    simpa [indexed_from] using hInv
  | cons t ts ih =>
    intro k processed store hInv hfresh
    have h1 : store_inv (processed ++ [⟨t, k⟩]) (add_message_sorted store ⟨t, k⟩) :=
      store_inv_step hInv (fun m hm => hfresh m hm)
    have h2 : ∀ m ∈ processed ++ [(⟨t, k⟩ : IdxMsg)], m.data < k + 1 := by
      intro m hm
      rcases List.mem_append.mp hm with h | h
      · have := hfresh m h; omega
      · rw [List.mem_singleton] at h
        subst h
        exact Nat.lt_succ_self k
    have h3 := ih (k + 1) (processed ++ [⟨t, k⟩]) _ h1 h2
    simpa [indexed_from, List.append_assoc] using h3

lemma message_store_run_inv (tss : List Int) :
    store_inv (indexed_from 0 tss) (message_store_run tss) := by
  have h := store_inv_fold tss 0 [] [] store_inv_nil (by simp)
  simpa [message_store_run] using h

/-- The claim `C1`: after any sequence of inserts the store is non-decreasing
in timestamp and records with equal timestamps keep their insertion order
(first conjunct pair, via the insertion-index payload); and each single insert
splices the new record immediately after the last existing record whose
timestamp is ≤ its own, scanning from the newest end — everything behind the
splice point is strictly newer (second conjunct, before the capacity
eviction). -/
theorem claim_C1_ordering :
    (∀ tss : List Int,
      (message_store_run tss).Pairwise (fun a b => a.timestamp ≤ b.timestamp) ∧
      (message_store_run tss).Pairwise
        (fun a b => a.timestamp = b.timestamp → a.data < b.data)) ∧
    (∀ (γ : Type) (l : List (tui_message γ)) (r : tui_message γ),
      ∃ A B, add_message_sorted l r = evict_loop (A ++ r :: B) ∧
        l = A ++ B ∧
        (∀ b ∈ B, r.timestamp < b.timestamp) ∧
        (∀ h : A ≠ [], (A.getLast h).timestamp ≤ r.timestamp)) := by
  constructor
  · intro tss
    obtain ⟨hs, -, -, -, -⟩ := message_store_run_inv tss
    constructor
    · exact hs.imp (fun h => by unfold lex_lt at h; omega)
    · exact hs.imp (fun h => by unfold lex_lt at h; omega)
  · intro γ l r
    obtain ⟨A, B, hins, hsplit, hB, hlast⟩ := insert_splice l r
    exact ⟨A, B, by unfold add_message_sorted; rw [hins], hsplit, hB, hlast⟩

/-- The claim `C2`: the store never exceeds the capacity 1000, holds exactly
`min N 1000` records after `N` inserts (so exactly the capacity once
`N > 1000`), retains only inserted records, and every inserted record that is
not retained is older — under the ordering rule (timestamp, then insertion
order) — than every retained one: the evicted records are exactly the oldest. -/
theorem claim_C2_capacity :
    ∀ tss : List Int,
      (message_store_run tss).length = min tss.length MAX_MESSAGES ∧
      (MAX_MESSAGES < tss.length →
        (message_store_run tss).length = MAX_MESSAGES) ∧
      (∀ m ∈ message_store_run tss, m ∈ indexed_from 0 tss) ∧
      (∀ m ∈ indexed_from 0 tss, m ∉ message_store_run tss →
        ∀ s ∈ message_store_run tss, lex_lt m s) := by
  intro tss
  obtain ⟨-, hlen, hmem, hdom, -⟩ := message_store_run_inv tss
  rw [indexed_from_length] at hlen
  refine ⟨hlen, fun h => by omega, hmem, ?_⟩
  intro m hm hnot s hs
  rcases hdom m hm with h | h
  · exact absurd h hnot
  · exact h s hs

/-! ## Session-level model (`tui_context` and its operations) -/

/-- Payload of a concrete message record: the sender (kept as the abstract
key; `format_short_npub` is an external display encoding, `none` standing for
the empty `sender_npub` of outgoing records), the stripped content bytes, and
the outgoing flag. The display-only `fade_in_counter` is omitted. -/
structure msg_data where
  sender : Option Nat
  content : List Nat
  is_outgoing : Bool
deriving DecidableEq

/-- Function `create_message`: strip the content, default a zero timestamp to the
current time (`time(NULL)` is the `now` argument), record the sender only for
non-outgoing records. Allocation is modelled as succeeding. -/
def create_message (content : List Nat) (sender : Option Nat) (timestamp : Int)
    (is_outgoing : Bool) (now : Int) : tui_message msg_data :=
  { timestamp := if timestamp = 0 then now else timestamp
    data := { sender := if is_outgoing then none else sender
              content := strip_bytes content
              is_outgoing := is_outgoing } }

/-- The claim-relevant fields of `tui_context`. Planes, reader, key material
and the display-only fade/idle fields are omitted; `relay_created` stands for
`ctx->relay != NULL`. -/
structure tui_ctx where
  store : List (tui_message msg_data)
  has_recipient : Bool
  recipient : Nat
  relay_created : Bool
  connected : Bool
  running : Bool
  status_text : String
  needs_redraw : Bool
  scroll_offset : Nat
deriving DecidableEq

/-- A `tui_context` as `whisper_tui` zero-initialises it
(`tui_context ctx = {0}`) — in particular `running` starts false. -/
def init_ctx : tui_ctx :=
  { store := []
    has_recipient := false
    recipient := 0
    relay_created := false
    connected := false
    running := false
    status_text := ""
    needs_redraw := false
    scroll_offset := 0 }

/-- The `add_message_sorted` call on the context: the sorted insert plus the
bookkeeping done around the lock (scroll reset, redraw signal). -/
def ctx_add_message (ctx : tui_ctx) (msg : tui_message msg_data) : tui_ctx :=
  { ctx with
      store := add_message_sorted ctx.store msg
      scroll_offset := 0
      needs_redraw := true }

/-- Function `free_all_messages`. -/
def free_all_messages (ctx : tui_ctx) : tui_ctx :=
  { ctx with store := [], scroll_offset := 0 }

/-- Outcomes of the external collaborators consulted during one send: the
`nostr_nip17_send_dm` and `nostr_publish_event` return codes, and the wall
clock read by `create_message`. -/
structure send_ext where
  create_dm_ok : Bool
  publish_ok : Bool
  now : Int
deriving DecidableEq

/-- Function `send_dm`. The Bool of the pair records whether `nostr_publish_event` was
invoked at all. Note that the relay acknowledgment (the later asynchronous
`"OK"` message) is no input of this function: the local echo is decided by
the local publish return code alone. -/
def send_dm (ext : send_ext) (ctx : tui_ctx) (content : List Nat) :
    tui_ctx × Bool :=
  if ctx.has_recipient = false then
    ({ ctx with
        status_text := "No recipient. Use /to <npub>"
        needs_redraw := true }, false)
  else if ctx.relay_created = false ∨ ctx.connected = false then
    ({ ctx with status_text := "Not connected", needs_redraw := true }, false)
  else if ext.create_dm_ok = false then
    ({ ctx with
        status_text := "Failed to create DM"
        needs_redraw := true }, false)
  else if ext.publish_ok then
    ({ ctx_add_message ctx (create_message content none 0 true ext.now) with
        status_text := "Sending..."
        needs_redraw := true }, true)
  else
    ({ ctx with status_text := "Send failed", needs_redraw := true }, true)

/-- C `isspace` on a byte (POSIX locale). -/
def is_space_byte (c : Nat) : Bool :=
  c == 32 || c == 9 || c == 10 || c == 11 || c == 12 || c == 13

/-- Function `handle_command`, with the external `whisper_parse_pubkey` as an oracle.
The literal command bytes are "/quit", "/q", "/clear", "/to " and "/help";
the unknown-command status (`"Unknown: %s"` in C) is abstracted to a
constant. -/
def handle_command (parse_pubkey : List Nat → Option Nat) (ctx : tui_ctx)
    (cmd : List Nat) : tui_ctx :=
  if cmd = [47, 113, 117, 105, 116] ∨ cmd = [47, 113] then
    { ctx with running := false }
  else if cmd = [47, 99, 108, 101, 97, 114] then
    { free_all_messages ctx with needs_redraw := true }
  else if cmd.take 4 = [47, 116, 111, 32] then
    match parse_pubkey ((cmd.drop 4).dropWhile is_space_byte) with
    | some key =>
      { free_all_messages
          { ctx with recipient := key, has_recipient := true } with
          status_text := "Recipient set"
          needs_redraw := true }
    | none => { ctx with status_text := "Invalid npub", needs_redraw := true }
  else if cmd = [47, 104, 101, 108, 112] then
    { ctx with status_text := "/to <npub> /clear /quit", needs_redraw := true }
  else
    { ctx with status_text := "Unknown command", needs_redraw := true }

/-- Whitespace trimming of the Enter handler: skip leading `isspace` bytes,
cut trailing ones. -/
def trim_bytes (l : List Nat) : List Nat :=
  (((l.dropWhile is_space_byte).reverse).dropWhile is_space_byte).reverse

/-- The Enter branch of `handle_input`: an empty buffer or an all-whitespace
line is a no-op, a trimmed line starting with the slash byte 0x2F goes to the
command handler, any other non-empty trimmed line is sent. The Bool again
records whether a publish happened (false on every command path). -/
def submit_line (parse_pubkey : List Nat → Option Nat) (ext : send_ext)
    (ctx : tui_ctx) (line : List Nat) : tui_ctx × Bool :=
  if line = [] then (ctx, false)
  else
    match trim_bytes line with
    | [] => (ctx, false)
    | c :: rest =>
      if c = 47 then (handle_command parse_pubkey ctx (c :: rest), false)
      else send_dm ext ctx (c :: rest)

/-! ## Relay connection lifecycle -/

/-- The `nostr_relay_state` values the callback distinguishes (plus the
default case). -/
inductive nostr_relay_state where
  | connected
  | error
  | disconnected
  | other
deriving DecidableEq

/-- Function `relay_state_cb`: a non-blocking store of the new phase, a status text and
the redraw flag; `DISCONNECTED` additionally clears `running`, ending the
session. -/
def relay_state_cb (ctx : tui_ctx) (st : nostr_relay_state) : tui_ctx :=
  match st with
  | .connected =>
    { ctx with
        connected := true
        status_text := "Connected"
        needs_redraw := true }
  | .error =>
    { ctx with
        connected := false
        status_text := "Connection error"
        needs_redraw := true }
  | .disconnected =>
    { ctx with
        connected := false
        running := false
        status_text := "Disconnected"
        needs_redraw := true }
  | .other => { ctx with needs_redraw := true }

/-- Constant `WHISPER_DEFAULT_TIMEOUT_MS`. -/
def WHISPER_DEFAULT_TIMEOUT_MS : Nat := 5000

/-- The callback delivery of one 100 ms sleep of the poll loop: apply the
event (if the trace holds one for this sleep) through `relay_state_cb`. -/
def poll_step (ctx : tui_ctx) (events : List (Option nostr_relay_state)) :
    tui_ctx :=
  match events.head? with
  | some (some st) => relay_state_cb ctx st
  | _ => ctx

/-- The poll loop of `connect_relay`: `while (!ctx->connected && ctx->running
&& elapsed_ms < timeout_ms) { usleep(100000); elapsed_ms += 100; }`. The
asynchronous `relay_state_cb` invocations are an event trace with at most one
event per 100 ms sleep; the result is (number of sleeps, final context). -/
def connect_wait (ctx : tui_ctx) (events : List (Option nostr_relay_state))
    (timeout_ms elapsed_ms : Nat) : Nat × tui_ctx :=
  if h : ctx.connected = true ∨ ctx.running = false ∨ timeout_ms ≤ elapsed_ms then
    (0, ctx)
  else
    ((connect_wait (poll_step ctx events) events.tail timeout_ms
        (elapsed_ms + 100)).1 + 1,
      (connect_wait (poll_step ctx events) events.tail timeout_ms
        (elapsed_ms + 100)).2)
termination_by timeout_ms - elapsed_ms
decreasing_by
all_goals
  have h3 : ¬ timeout_ms ≤ elapsed_ms := fun hh => h (Or.inr (Or.inr hh))
  omega

/-- Return codes of the two external relay calls made before polling, plus
the callback trace observed while polling. -/
structure connect_ext where
  create_ok : Bool
  connect_ok : Bool
  events : List (Option nostr_relay_state)
deriving DecidableEq

/-- Function `connect_relay`: create the relay, register callbacks, start the
asynchronous connect, poll, and fail unless the final `connected` flag is
set. The scheme-check warning only writes status text and is omitted. -/
def connect_relay (cext : connect_ext) (ctx : tui_ctx) (timeout_cfg : Int) :
    Int × tui_ctx :=
  if cext.create_ok = false then (-1, ctx)
  else if cext.connect_ok = false then (-1, ctx)
  else
    let timeout_ms := if 0 < timeout_cfg then timeout_cfg.toNat
      else WHISPER_DEFAULT_TIMEOUT_MS
    let r := connect_wait { ctx with relay_created := true } cext.events
      timeout_ms 0
    if r.2.connected = false then (-1, r.2) else (0, r.2)

/-- The context after the first `k` sleeps of the poll loop: the callbacks of
the trace delivered so far, applied in order. -/
def wait_state (ctx : tui_ctx) (events : List (Option nostr_relay_state))
    (k : Nat) : tui_ctx :=
  (events.take k).foldl
    (fun c e => match e with
      | some st => relay_state_cb c st
      | none => c) ctx

/-- Process exit codes (whisper.h). -/
def WHISPER_EXIT_OK : Nat := 0

def WHISPER_EXIT_INVALID_ARGS : Nat := 1

def WHISPER_EXIT_KEY_ERROR : Nat := 2

def WHISPER_EXIT_RELAY_ERROR : Nat := 3

def WHISPER_EXIT_CRYPTO_ERROR : Nat := 4

def WHISPER_EXIT_TIMEOUT : Nat := 5

/-- Outcome summary of one `whisper_tui` run: exit status, whether the
render/input loop was entered, and the status text when it was entered. -/
structure tui_outcome where
  exit_code : Nat
  entered_loop : Bool
  status_text : String
deriving DecidableEq

/-- Tail of `whisper_tui` from the connect attempt on (initialisation, key
load, notcurses and UI setup all succeeded): a failed `connect_relay` merely
writes "Connection failed" into the status bar and renders; `run_event_loop`
is entered unconditionally and the function returns `WHISPER_EXIT_OK`. -/
def whisper_tui_connect_phase (cext : connect_ext) (ctx : tui_ctx)
    (timeout_cfg : Int) : tui_outcome :=
  let r := connect_relay cext ctx timeout_cfg
  let ctx' := if r.1 = 0 then r.2
    else { r.2 with status_text := "Connection failed" }
  { exit_code := WHISPER_EXIT_OK
    entered_loop := true
    status_text := ctx'.status_text }

/-! ## Event ingestion and the render/input loop -/

/-- An incoming relay event as `event_cb` sees it: its kind and the result of
the external `nostr_nip17_unwrap_dm` — content bytes, sender key and rumor
`created_at` on success, `none` on unwrap failure. -/
structure incoming_event where
  kind : Nat
  unwrapped : Option (List Nat × Nat × Int)
deriving DecidableEq

/-- Function `event_cb`: ignore non-1059 kinds and undecryptable events; with a
recipient set, silently discard other senders; otherwise build the incoming
record (`is_outgoing = false`) and insert it. -/
def event_cb (ctx : tui_ctx) (ev : incoming_event) (now : Int) : tui_ctx :=
  if ev.kind ≠ 1059 then ctx
  else
    match ev.unwrapped with
    | none => ctx
    | some (content, sender, created_at) =>
      if ctx.has_recipient = true ∧ sender ≠ ctx.recipient then ctx
      else
        { ctx_add_message ctx
            (create_message content (some sender) created_at false now) with
            needs_redraw := true }

/-- The keystrokes `handle_input` distinguishes; Enter carries the line
editor's contents (`ncreader_contents`). -/
inductive input_key where
  | ctrl_q
  | enter (line : List Nat)
  | page_up
  | page_down
  | other
deriving DecidableEq

/-- Function `handle_input`, given the message-plane height `rows` for the scroll
clamp. The idle/fade resets are display-only and omitted. -/
def handle_input (parse_pubkey : List Nat → Option Nat) (ext : send_ext)
    (rows : Nat) (ctx : tui_ctx) (k : input_key) : tui_ctx :=
  match k with
  | .ctrl_q => { ctx with running := false }
  | .enter line =>
    { (submit_line parse_pubkey ext ctx line).1 with needs_redraw := true }
  | .page_up =>
    let max_scroll := ctx.store.length - rows
    { ctx with
        scroll_offset := if max_scroll < ctx.scroll_offset + 1 then max_scroll
          else ctx.scroll_offset + 1
        needs_redraw := true }
  | .page_down =>
    { ctx with scroll_offset := ctx.scroll_offset - 1, needs_redraw := true }
  | .other => { ctx with needs_redraw := true }

/-- One cooperative tick's external input: the relay callbacks that fired
during the 50 ms poll, and the keypress (if any) the poll returned. -/
structure loop_tick where
  relay_events : List nostr_relay_state
  key : Option input_key

/-- Function `run_event_loop`: while `running`, absorb the tick's asynchronous
callbacks, then dispatch the keypress (idle ticks only redraw). The
subscription bookkeeping and the rendering itself touch no claim-relevant
state and are omitted; the loop contains no reconnect path. -/
def run_event_loop (parse_pubkey : List Nat → Option Nat) (ext : send_ext)
    (rows : Nat) : List loop_tick → tui_ctx → tui_ctx
  | [], ctx => ctx
  | t :: rest, ctx =>
    if ctx.running = false then ctx
    else
      let ctx1 := t.relay_events.foldl relay_state_cb ctx
      let ctx2 := match t.key with
        | none => ctx1
        | some k => handle_input parse_pubkey ext rows ctx1 k
      run_event_loop parse_pubkey ext rows rest ctx2

/-! ## Claims about the send path and the connect wait -/

/-- The claim `C3`: a non-empty, non-command line is sent only when a
recipient is set and the phase is `Connected`; otherwise the "no recipient"
or "not connected" advisory is shown (checked in that order), nothing is
published and the context — in particular the store — is otherwise untouched;
a DM-construction or local publish failure inserts nothing; and on local
publish success a local-echo record with `is_outgoing = true` and the current
time is inserted. The relay acknowledgment is not an input of `send_dm` at
all, so the echo is independent of it by construction. -/
theorem claim_C3_send_paths :
    ∀ (parse_pubkey : List Nat → Option Nat) (ext : send_ext) (ctx : tui_ctx)
      (content line : List Nat),
      (ctx.has_recipient = false →
        send_dm ext ctx content =
          ({ ctx with
              status_text := "No recipient. Use /to <npub>"
              needs_redraw := true }, false)) ∧
      (ctx.has_recipient = true →
        ctx.relay_created = false ∨ ctx.connected = false →
        send_dm ext ctx content =
          ({ ctx with status_text := "Not connected", needs_redraw := true },
            false)) ∧
      (ext.create_dm_ok = false ∨ ext.publish_ok = false →
        (send_dm ext ctx content).1.store = ctx.store) ∧
      (ctx.has_recipient = true → ctx.relay_created = true →
        ctx.connected = true → ext.create_dm_ok = true → ext.publish_ok = true →
        (send_dm ext ctx content).1.store =
          add_message_sorted ctx.store
            (create_message content none 0 true ext.now) ∧
        (create_message content none 0 true ext.now).data.is_outgoing = true ∧
        (create_message content none 0 true ext.now).timestamp = ext.now) ∧
      (∀ c rest, line ≠ [] → trim_bytes line = c :: rest → c ≠ 47 →
        submit_line parse_pubkey ext ctx line = send_dm ext ctx (c :: rest)) := by
  intro parse_pubkey ext ctx content line
  refine ⟨?_, ?_, ?_, ?_, ?_⟩
  · intro h
    simp [send_dm, h]
  · intro h1 h2
    rcases h2 with h2 | h2 <;> simp [send_dm, h1, h2]
  · intro h
    unfold send_dm
    rcases h with h | h <;> split_ifs <;> simp_all [ctx_add_message]
  · intro h1 h2 h3 h4 h5
    refine ⟨?_, rfl, by simp [create_message]⟩
    simp [send_dm, h1, h2, h3, h4, h5, ctx_add_message]
  · intro c rest hne htrim hc
    simp [submit_line, hne, htrim, hc]

lemma wait_state_zero (ctx : tui_ctx) (events : List (Option nostr_relay_state)) :
    wait_state ctx events 0 = ctx := rfl

lemma wait_state_succ (ctx : tui_ctx) (events : List (Option nostr_relay_state))
    (k : Nat) :
    wait_state ctx events (k + 1) = wait_state (poll_step ctx events) events.tail k := by
  cases events with
  | nil => simp [wait_state, poll_step]
  | cons e es =>
    cases e with
    | some st => simp [wait_state, poll_step, List.take_succ_cons]
    | none => simp [wait_state, poll_step, List.take_succ_cons]

/-- Full characterisation of the poll loop: it performs one 100 ms sleep per
iteration and stops at the first iteration at which it observes the
`connected` flag set, or the `running` flag cleared, or the timeout elapsed —
and at no earlier iteration does any of the three hold. -/
lemma connect_wait_spec (timeout_ms : Nat) :
    ∀ (n elapsed_ms : Nat), timeout_ms - elapsed_ms ≤ n →
    ∀ (ctx : tui_ctx) (events : List (Option nostr_relay_state)),
      (connect_wait ctx events timeout_ms elapsed_ms).2 =
        wait_state ctx events (connect_wait ctx events timeout_ms elapsed_ms).1 ∧
      ((connect_wait ctx events timeout_ms elapsed_ms).2.connected = true ∨
        (connect_wait ctx events timeout_ms elapsed_ms).2.running = false ∨
        timeout_ms ≤ elapsed_ms +
          100 * (connect_wait ctx events timeout_ms elapsed_ms).1) ∧
      (∀ k < (connect_wait ctx events timeout_ms elapsed_ms).1,
        ¬ ((wait_state ctx events k).connected = true ∨
           (wait_state ctx events k).running = false ∨
           timeout_ms ≤ elapsed_ms + 100 * k)) := by
  intro n
  induction n with
  | zero =>
    intro elapsed_ms hle ctx events
    rw [connect_wait, dif_pos (Or.inr (Or.inr (by omega)))]
    exact ⟨rfl, Or.inr (Or.inr (by omega)), fun k hk => absurd hk (by omega)⟩
  | succ n ih =>
    intro elapsed_ms hle ctx events
    by_cases hg : ctx.connected = true ∨ ctx.running = false ∨
        timeout_ms ≤ elapsed_ms
    · rw [connect_wait, dif_pos hg]
      refine ⟨rfl, ?_, fun k hk => absurd hk (by omega)⟩
      rcases hg with hg | hg | hg
      · exact Or.inl hg
      · exact Or.inr (Or.inl hg)
      · exact Or.inr (Or.inr (by omega))
    · have hlt : ¬ timeout_ms ≤ elapsed_ms := fun hh => hg (Or.inr (Or.inr hh))
      obtain ⟨h1, h2, h3⟩ := ih (elapsed_ms + 100) (by omega)
        (poll_step ctx events) events.tail
      rw [connect_wait, dif_neg hg]
      refine ⟨?_, ?_, ?_⟩
      · rw [wait_state_succ]
        exact h1
      · rcases h2 with h2 | h2 | h2
        · exact Or.inl h2
        · exact Or.inr (Or.inl h2)
        · exact Or.inr (Or.inr (by omega))
      · intro k hk
        cases k with
        | zero =>
          rw [wait_state_zero]
          intro hcon
          rcases hcon with hcon | hcon | hcon
          · exact hg (Or.inl hcon)
          · exact hg (Or.inr (Or.inl hcon))
          · exact hlt (by omega)
        | succ j =>
          rw [wait_state_succ]
          have hj := h3 j (by omega)
          intro hcon
          apply hj
          rcases hcon with hcon | hcon | hcon
          · exact Or.inl hcon
          · exact Or.inr (Or.inl hcon)
          · exact Or.inr (Or.inr (by omega))

/-- The claim `C4`, amended: the wait loop polls the `connected`/`running`
flags at a fixed 100 ms step and terminates exactly at the first poll at
which `connected` is observed set (success), or `running` is observed clear,
or the timeout has elapsed (failure in both of the latter cases, via the
final `!ctx->connected` check); an observed `Error` phase does not terminate
the wait — `relay_state_cb` merely clears `connected` on it, so an error is
surfaced only when the timeout later elapses. `connect_relay` succeeds
(returns 0) precisely when the loop ends with `connected` observed. -/
theorem claim_C4_amended_poll :
    ∀ (ctx : tui_ctx) (events : List (Option nostr_relay_state))
      (timeout_ms elapsed_ms : Nat),
      ((connect_wait ctx events timeout_ms elapsed_ms).2 =
        wait_state ctx events (connect_wait ctx events timeout_ms elapsed_ms).1) ∧
      ((connect_wait ctx events timeout_ms elapsed_ms).2.connected = true ∨
        (connect_wait ctx events timeout_ms elapsed_ms).2.running = false ∨
        timeout_ms ≤ elapsed_ms +
          100 * (connect_wait ctx events timeout_ms elapsed_ms).1) ∧
      (∀ k < (connect_wait ctx events timeout_ms elapsed_ms).1,
        ¬ ((wait_state ctx events k).connected = true ∨
           (wait_state ctx events k).running = false ∨
           timeout_ms ≤ elapsed_ms + 100 * k)) ∧
      (∀ st : nostr_relay_state, st = .error →
        ∀ c : tui_ctx, (relay_state_cb c st).connected = false ∧
          (relay_state_cb c st).running = c.running) ∧
      (∀ (cext : connect_ext) (tcfg : Int),
        cext.create_ok = true → cext.connect_ok = true →
        ((connect_relay cext ctx tcfg).1 = 0 ↔
          (connect_relay cext ctx tcfg).2.connected = true)) := by
  intro ctx events timeout_ms elapsed_ms
  obtain ⟨h1, h2, h3⟩ :=
    connect_wait_spec timeout_ms (timeout_ms - elapsed_ms) elapsed_ms le_rfl ctx
      events
  refine ⟨h1, h2, h3, ?_, ?_⟩
  · rintro st rfl c
    exact ⟨rfl, rfl⟩
  · intro cext tcfg hcr hco
    unfold connect_relay
    rw [if_neg (by simp [hcr]), if_neg (by simp [hco])]
    by_cases hc :
        (connect_wait { ctx with relay_created := true } cext.events
          (if 0 < tcfg then tcfg.toNat else WHISPER_DEFAULT_TIMEOUT_MS) 0).2.connected = false
    · rw [if_pos hc]
      constructor
      · intro h; omega
      · intro h; rw [hc] at h; exact absurd h (by simp)
    · rw [if_neg hc]
      simp only [Bool.not_eq_false] at hc
      exact ⟨fun _ => hc, fun _ => rfl⟩

/-- The claim `C4` as stated is false on the code: with the `running` flag set
and a 500 ms timeout, an `Error` phase observed during the very first sleep
does not fail the wait immediately — the loop keeps polling and performs all
5 sleeps before failing by timeout. Moreover at the real call site the wait
cannot poll at all: `whisper_tui` calls `connect_relay` while `running` is
still false (it is set only inside `run_event_loop`, which starts later), so
the loop exits after 0 sleeps. -/
theorem claim_C4_counterexample :
    (connect_wait { init_ctx with running := true } [some .error] 500 0).1 = 5 ∧
    (connect_wait { init_ctx with running := true }
      [some .error] 500 0).2.connected = false ∧
    ¬ (connect_wait { init_ctx with running := true } [some .error] 500 0).1 = 1 ∧
    (connect_wait init_ctx [] 5000 0).1 = 0 := by
  refine ⟨?_, ?_, ?_, ?_⟩ <;>
    simp [connect_wait, poll_step, relay_state_cb, init_ctx]

/-! ## Claims about startup, ingestion and the render/input loop -/

/-- The claim `C5`, amended: when the initial connect fails (or times out),
`whisper_tui` reports "Connection failed" in the status bar — but it still
enters the render/input loop and finally returns `WHISPER_EXIT_OK` (0). -/
theorem claim_C5_amended_connect_failure :
    ∀ (cext : connect_ext) (ctx : tui_ctx) (timeout_cfg : Int),
      (connect_relay cext ctx timeout_cfg).1 ≠ 0 →
      whisper_tui_connect_phase cext ctx timeout_cfg =
        { exit_code := WHISPER_EXIT_OK
          entered_loop := true
          status_text := "Connection failed" } := by
  intro cext ctx tcfg h
  simp [whisper_tui_connect_phase, h]

/-- Witness for the amended `C5` at a concrete input: a run whose
`nostr_relay_connect` call fails. -/
theorem claim_C5_amended_witness :
    whisper_tui_connect_phase ⟨true, false, []⟩ init_ctx 5000 =
      { exit_code := WHISPER_EXIT_OK
        entered_loop := true
        status_text := "Connection failed" } :=
  claim_C5_amended_connect_failure ⟨true, false, []⟩ init_ctx 5000 (by decide)

/-- The claim `C5` as stated is false on the code: after a failed initial
connect the session still enters the render/input loop and the process exit
status is `WHISPER_EXIT_OK` = 0, not non-zero. -/
theorem claim_C5_counterexample :
    (whisper_tui_connect_phase ⟨true, false, []⟩ init_ctx 5000).entered_loop
        = true ∧
    (whisper_tui_connect_phase ⟨true, false, []⟩ init_ctx 5000).exit_code = 0 := by
  constructor <;> rfl

/-- The claim `C6`, amended: with a recipient set, an event from another
sender (or a failed unwrap) leaves the context — in particular the store —
unchanged, so the size never increases; an event from the recipient is
spliced into the store, and the size grows by one exactly when the store is
below capacity — at capacity it stays `MAX_MESSAGES`. -/
theorem claim_C6_amended_recipient_filter :
    ∀ (ctx : tui_ctx) (ev : incoming_event) (now : Int),
      ctx.has_recipient = true →
      (∀ content sender ts, ev.unwrapped = some (content, sender, ts) →
        sender ≠ ctx.recipient → event_cb ctx ev now = ctx) ∧
      (ev.unwrapped = none → event_cb ctx ev now = ctx) ∧
      (∀ content ts, ev.kind = 1059 →
        ev.unwrapped = some (content, ctx.recipient, ts) →
        (event_cb ctx ev now).store =
          add_message_sorted ctx.store
            (create_message content (some ctx.recipient) ts false now) ∧
        (event_cb ctx ev now).store.length =
          min (ctx.store.length + 1) MAX_MESSAGES) := by
  intro ctx ev now hr
  refine ⟨?_, ?_, ?_⟩
  · intro content sender ts hun hne
    by_cases hk : ev.kind ≠ 1059
    · simp [event_cb, hk]
    · simp [event_cb, hk, hun, hr, hne]
  · intro hun
    by_cases hk : ev.kind ≠ 1059
    · simp [event_cb, hk]
    · simp [event_cb, hk, hun]
  · intro content ts hk hun
    have hstore : (event_cb ctx ev now).store =
        add_message_sorted ctx.store
          (create_message content (some ctx.recipient) ts false now) := by
      simp [event_cb, hk, hun, hr, ctx_add_message]
    exact ⟨hstore, by rw [hstore, add_message_sorted_length]⟩

/-- Witness for the amended `C6` at a concrete input: sender 6 ≠ recipient 5
is dropped; sender 5 is inserted into the empty store, size 0 → 1. -/
theorem claim_C6_amended_witness :
    (event_cb { init_ctx with has_recipient := true, recipient := 5 }
        ⟨1059, some ([104], 6, 10)⟩ 0 =
      { init_ctx with has_recipient := true, recipient := 5 }) ∧
    (event_cb { init_ctx with has_recipient := true, recipient := 5 }
        ⟨1059, some ([104], 5, 10)⟩ 0).store.length = 1 := by
  constructor
  · exact (claim_C6_amended_recipient_filter
      { init_ctx with has_recipient := true, recipient := 5 }
      ⟨1059, some ([104], 6, 10)⟩ 0 rfl).1 [104] 6 10 rfl (by decide)
  · have h := (claim_C6_amended_recipient_filter
      { init_ctx with has_recipient := true, recipient := 5 }
      ⟨1059, some ([104], 5, 10)⟩ 0 rfl).2.2 [104] 10 rfl rfl
    rw [h.2]
    rfl

/-- A store already holding `MAX_MESSAGES` records (ascending timestamps
0..999), reachable by inserting them in order. -/
def full_store : List (tui_message msg_data) :=
  (List.range MAX_MESSAGES).map (fun i : Nat => ⟨Int.ofNat i, ⟨none, [], false⟩⟩)

/-- A context at capacity with recipient 5 set. -/
def full_ctx : tui_ctx :=
  { init_ctx with store := full_store, has_recipient := true, recipient := 5 }

/-- The claim `C6` as stated is false on the code at capacity: with recipient
5 set and the store full (1000 records), ingesting a fresh, successfully
unwrapped event from sender 5 does still get inserted, but the store size
does not increase — the oldest record is evicted and the size stays 1000. -/
theorem claim_C6_counterexample :
    full_ctx.has_recipient = true ∧
    full_ctx.store.length = 1000 ∧
    (event_cb full_ctx ⟨1059, some ([104], 5, 2000)⟩ 0).store.length =
      full_ctx.store.length := by
  have hlen : full_ctx.store.length = 1000 := by
    show full_store.length = 1000
    rw [full_store, List.length_map, List.length_range]
    rfl
  refine ⟨rfl, hlen, ?_⟩
  have h : (event_cb full_ctx ⟨1059, some ([104], 5, 2000)⟩ 0).store =
      add_message_sorted full_ctx.store
        (create_message [104] (some 5) 2000 false 0) := by
    simp [event_cb, full_ctx, init_ctx, ctx_add_message]
  rw [h, add_message_sorted_length, hlen]
  rfl

lemma relay_state_cb_running_false (ctx : tui_ctx) (st : nostr_relay_state)
    (h : ctx.running = false) : (relay_state_cb ctx st).running = false := by
  cases st <;> simp [relay_state_cb, h]

lemma relay_fold_running_false (events : List nostr_relay_state) :
    ∀ ctx : tui_ctx, ctx.running = false →
      (events.foldl relay_state_cb ctx).running = false := by
  induction events with
  | nil => intro ctx h; exact h
  | cons e es ih =>
    intro ctx h
    exact ih _ (relay_state_cb_running_false ctx e h)

lemma relay_fold_disconnected (events : List nostr_relay_state) :
    ∀ ctx : tui_ctx, nostr_relay_state.disconnected ∈ events →
      (events.foldl relay_state_cb ctx).running = false := by
  induction events with
  | nil => intro ctx h; simp at h
  | cons e es ih =>
    intro ctx h
    rcases List.mem_cons.mp h with heq | hm
    · subst heq
      exact relay_fold_running_false es _ (by simp [relay_state_cb])
    · exact ih _ hm

lemma send_dm_running (ext : send_ext) (ctx : tui_ctx) (content : List Nat) :
    (send_dm ext ctx content).1.running = ctx.running := by
  unfold send_dm
  split_ifs <;> simp [ctx_add_message]

lemma handle_command_running_false (parse_pubkey : List Nat → Option Nat)
    (ctx : tui_ctx) (cmd : List Nat) (h : ctx.running = false) :
    (handle_command parse_pubkey ctx cmd).running = false := by
  unfold handle_command
  split_ifs
  · rfl
  · simp [free_all_messages, h]
  · rcases hp : parse_pubkey ((cmd.drop 4).dropWhile is_space_byte) with _ | key <;>
      simp [hp, free_all_messages, h]
  · simp [h]
  · simp [h]

lemma submit_line_running_false (parse_pubkey : List Nat → Option Nat)
    (ext : send_ext) (ctx : tui_ctx) (line : List Nat)
    (h : ctx.running = false) :
    (submit_line parse_pubkey ext ctx line).1.running = false := by
  unfold submit_line
  split_ifs with h1
  · exact h
  · rcases htr : trim_bytes line with _ | ⟨c, rest⟩
    · exact h
    · by_cases hc : c = 47
      · simp [hc, handle_command_running_false _ _ _ h]
      · simp [hc, send_dm_running, h]

lemma handle_input_running_false (parse_pubkey : List Nat → Option Nat)
    (ext : send_ext) (rows : Nat) (ctx : tui_ctx) (k : input_key)
    (h : ctx.running = false) :
    (handle_input parse_pubkey ext rows ctx k).running = false := by
  cases k <;>
    simp [handle_input, h, submit_line_running_false _ _ _ _ h]

lemma run_event_loop_stopped (parse_pubkey : List Nat → Option Nat)
    (ext : send_ext) (rows : Nat) :
    ∀ (ticks : List loop_tick) (ctx : tui_ctx), ctx.running = false →
      run_event_loop parse_pubkey ext rows ticks ctx = ctx := by
  intro ticks ctx h
  cases ticks with
  | nil => rfl
  | cons t rest => simp [run_event_loop, h]

/-- The claim `C7`: after `Connected`, a `Disconnected` phase observation
flips the loop state from running to terminating (`relay_state_cb` clears
`running`), the loop then consumes no further ticks — it ends without any
further user input, whatever keys would have followed — and nothing in the
loop reconnects: the run on the disconnecting tick alone already equals the
whole run. -/
theorem claim_C7_disconnect_terminates :
    ∀ (parse_pubkey : List Nat → Option Nat) (ext : send_ext) (rows : Nat)
      (ctx : tui_ctx) (t : loop_tick) (rest : List loop_tick),
      ctx.connected = true → ctx.running = true →
      nostr_relay_state.disconnected ∈ t.relay_events →
      (relay_state_cb ctx .disconnected).running = false ∧
      (run_event_loop parse_pubkey ext rows (t :: rest) ctx).running = false ∧
      run_event_loop parse_pubkey ext rows (t :: rest) ctx =
        run_event_loop parse_pubkey ext rows [t] ctx := by
  intro parse_pubkey ext rows ctx t rest hc hr hd
  have h1 : (t.relay_events.foldl relay_state_cb ctx).running = false :=
    relay_fold_disconnected _ _ hd
  have h2 : (match t.key with
      | none => t.relay_events.foldl relay_state_cb ctx
      | some k =>
        handle_input parse_pubkey ext rows
          (t.relay_events.foldl relay_state_cb ctx) k).running = false := by
    rcases t.key with _ | k
    · exact h1
    · exact handle_input_running_false _ _ _ _ _ h1
  have hrun : ∀ rest' : List loop_tick,
      run_event_loop parse_pubkey ext rows (t :: rest') ctx =
        (match t.key with
          | none => t.relay_events.foldl relay_state_cb ctx
          | some k =>
            handle_input parse_pubkey ext rows
              (t.relay_events.foldl relay_state_cb ctx) k) := by
    intro rest'
    rw [run_event_loop, if_neg (by rw [hr]; exact fun hh => by cases hh)]
    exact run_event_loop_stopped _ _ _ _ _ h2
  refine ⟨rfl, ?_, ?_⟩
  · rw [hrun rest]
    exact h2
  · rw [hrun rest, hrun []]

/-- Witness for `C7` at a concrete input: a connected running session, a tick
delivering `Disconnected`, and a pending Ctrl+Q keypress that is never
consumed. -/
theorem claim_C7_witness :
    (relay_state_cb { init_ctx with connected := true, running := true }
        .disconnected).running = false ∧
    (run_event_loop (fun _ => none) ⟨true, true, 0⟩ 10
        [⟨[.disconnected], none⟩, ⟨[], some .ctrl_q⟩]
        { init_ctx with connected := true, running := true }).running = false ∧
    run_event_loop (fun _ => none) ⟨true, true, 0⟩ 10
        [⟨[.disconnected], none⟩, ⟨[], some .ctrl_q⟩]
        { init_ctx with connected := true, running := true } =
      run_event_loop (fun _ => none) ⟨true, true, 0⟩ 10 [⟨[.disconnected], none⟩]
        { init_ctx with connected := true, running := true } :=
  claim_C7_disconnect_terminates (fun _ => none) ⟨true, true, 0⟩ 10
    { init_ctx with connected := true, running := true }
    ⟨[.disconnected], none⟩ [⟨[], some .ctrl_q⟩] rfl rfl (by decide)

/-- The claim `C10`: with no recipient set, every successfully unwrapped
kind-1059 event is inserted into the store regardless of its sender; the
single-peer filter acts only once a recipient has been set. -/
theorem claim_C10_no_recipient_inserts_all :
    ∀ (ctx : tui_ctx) (now ts : Int) (content : List Nat) (sender : Nat),
      (ctx.has_recipient = false →
        event_cb ctx ⟨1059, some (content, sender, ts)⟩ now =
          { ctx_add_message ctx
              (create_message content (some sender) ts false now) with
              needs_redraw := true }) ∧
      (ctx.has_recipient = true → sender ≠ ctx.recipient →
        event_cb ctx ⟨1059, some (content, sender, ts)⟩ now = ctx) := by
  intro ctx now ts content sender
  constructor
  · intro h
    simp [event_cb, h]
  · intro h1 h2
    simp [event_cb, h1, h2]

end Whisper
